import Mathlib

set_option maxRecDepth 40000

/-!
Verification development for the GHCS permissioned credit ledger
(`services/blockchain_service.py` and the `buy_credit` / quota / freeze
routes of `working model/proto_v3_migrated.py`).

The Python code is shallowly embedded: pure helpers become Lean functions,
the mutable `SimulatedBlockchain` object becomes explicit state passing on
a `BState` structure, and the nondeterministic inputs of the code
(`time()`, `datetime.now().isoformat()`, the random seed of
`_generate_transaction_id`, and the nonce found by the `proof_of_work`
while-loop) are threaded as explicit oracle parameters.  SHA-256 and the
`json.dumps(..., sort_keys=True)` serialization are implemented exactly,
so hashes are computed bit-for-bit as the Python code computes them.
-/

/-! ## SHA-256, executable on `Nat`

A faithful implementation of FIPS 180-4 SHA-256 over byte lists
(`List Nat`, every entry < 256), used by `hashlib.sha256` call sites.
All word arithmetic is `Nat` arithmetic reduced modulo `2 ^ 32`.
-/

def u32 (x : Nat) : Nat := x % 4294967296

def rotr32 (x n : Nat) : Nat := u32 ((x >>> n) ||| (x <<< (32 - n)))

def sigA0 (x : Nat) : Nat := (rotr32 x 2) ^^^ (rotr32 x 13) ^^^ (rotr32 x 22)

def sigA1 (x : Nat) : Nat := (rotr32 x 6) ^^^ (rotr32 x 11) ^^^ (rotr32 x 25)

def sigB0 (x : Nat) : Nat := (rotr32 x 7) ^^^ (rotr32 x 18) ^^^ (x >>> 3)

def sigB1 (x : Nat) : Nat := (rotr32 x 17) ^^^ (rotr32 x 19) ^^^ (x >>> 10)

def chf (x y z : Nat) : Nat := (x &&& y) ^^^ ((x ^^^ 4294967295) &&& z)

def majf (x y z : Nat) : Nat := (x &&& y) ^^^ (x &&& z) ^^^ (y &&& z)

def shaK : List Nat :=
  [1116352408, 1899447441, 3049323471, 3921009573, 961987163,
   1508970993, 2453635748, 2870763221, 3624381080, 310598401,
   607225278, 1426881987, 1925078388, 2162078206, 2614888103,
   3248222580, 3835390401, 4022224774, 264347078, 604807628,
   770255983, 1249150122, 1555081692, 1996064986, 2554220882,
   2821834349, 2952996808, 3210313671, 3336571891, 3584528711,
   113926993, 338241895, 666307205, 773529912, 1294757372,
   1396182291, 1695183700, 1986661051, 2177026350, 2456956037,
   2730485921, 2820302411, 3259730800, 3345764771, 3516065817,
   3600352804, 4094571909, 275423344, 430227734, 506948616,
   659060556, 883997877, 958139571, 1322822218, 1537002063,
   1747873779, 1955562222, 2024104815, 2227730452, 2361852424,
   2428436474, 2756734187, 3204031479, 3329325298]

/-- One run of the 64 SHA-256 rounds.  The first list argument supplies the
round constants; the eight accumulators follow, then the 16-word sliding
window of the message schedule. -/
def shaRounds : List Nat → Nat → Nat → Nat → Nat → Nat → Nat → Nat → Nat →
    Nat → Nat → Nat → Nat → Nat → Nat → Nat → Nat →
    Nat → Nat → Nat → Nat → Nat → Nat → Nat → Nat →
    Nat × Nat × Nat × Nat × Nat × Nat × Nat × Nat
  | [], a, b, c, d, e, f, g, h,
    _, _, _, _, _, _, _, _, _, _, _, _, _, _, _, _ => (a, b, c, d, e, f, g, h)
  | k :: ks, a, b, c, d, e, f, g, h,
    w0, w1, w2, w3, w4, w5, w6, w7, w8, w9, w10, w11, w12, w13, w14, w15 =>
    let t1 := u32 (h + sigA1 e + chf e f g + k + w0)
    let t2 := u32 (sigA0 a + majf a b c)
    let w16 := u32 (sigB1 w14 + w9 + sigB0 w1 + w0)
    shaRounds ks (u32 (t1 + t2)) a b c (u32 (d + t1)) e f g
      w1 w2 w3 w4 w5 w6 w7 w8 w9 w10 w11 w12 w13 w14 w15 w16

/-- Fold the 16-word chunks of a padded message through the compression
function, starting from the running hash value `(a, …, h)`. -/
def shaProcess : List Nat → Nat → Nat → Nat → Nat → Nat → Nat → Nat → Nat →
    Nat × Nat × Nat × Nat × Nat × Nat × Nat × Nat
  | w0 :: w1 :: w2 :: w3 :: w4 :: w5 :: w6 :: w7 ::
    w8 :: w9 :: w10 :: w11 :: w12 :: w13 :: w14 :: w15 :: rest,
    a, b, c, d, e, f, g, h =>
    let r := shaRounds shaK a b c d e f g h
      w0 w1 w2 w3 w4 w5 w6 w7 w8 w9 w10 w11 w12 w13 w14 w15
    shaProcess rest (u32 (a + r.1)) (u32 (b + r.2.1)) (u32 (c + r.2.2.1))
      (u32 (d + r.2.2.2.1)) (u32 (e + r.2.2.2.2.1)) (u32 (f + r.2.2.2.2.2.1))
      (u32 (g + r.2.2.2.2.2.2.1)) (u32 (h + r.2.2.2.2.2.2.2))
  | _, a, b, c, d, e, f, g, h => (a, b, c, d, e, f, g, h)

/-- Big-endian 4-byte groups to 32-bit words. -/
def toWords : List Nat → List Nat
  | b0 :: b1 :: b2 :: b3 :: rest => (((b0 * 256 + b1) * 256 + b2) * 256 + b3) :: toWords rest
  | _ => []

def lenBytes8 (n : Nat) : List Nat :=
  [(n >>> 56) % 256, (n >>> 48) % 256, (n >>> 40) % 256, (n >>> 32) % 256,
   (n >>> 24) % 256, (n >>> 16) % 256, (n >>> 8) % 256, n % 256]

/-- FIPS 180-4 padding: `0x80`, zeros to 56 mod 64, then the 64-bit
big-endian bit length. -/
def padBytes (msg : List Nat) : List Nat :=
  let L := msg.length
  let z := (119 - (L % 64)) % 64
  msg ++ 128 :: List.replicate z 0 ++ lenBytes8 (L * 8)

def wordBytes (w : Nat) : List Nat :=
  [(w >>> 24) % 256, (w >>> 16) % 256, (w >>> 8) % 256, w % 256]

/-- SHA-256 digest of a byte list, as the list of 32 digest bytes. -/
def sha256 (msg : List Nat) : List Nat :=
  let r := shaProcess (toWords (padBytes msg))
    1779033703 3144134277 1013904242 2773480762 1359893119 2600822924 528734635 1541459225
  wordBytes r.1 ++ wordBytes r.2.1 ++ wordBytes r.2.2.1 ++ wordBytes r.2.2.2.1 ++
  wordBytes r.2.2.2.2.1 ++ wordBytes r.2.2.2.2.2.1 ++ wordBytes r.2.2.2.2.2.2.1 ++
  wordBytes r.2.2.2.2.2.2.2

def hexDigit (v : Nat) : Char :=
  if v < 10 then Char.ofNat (48 + v) else Char.ofNat (87 + v)

def hexByte (b : Nat) : List Char := [hexDigit (b / 16), hexDigit (b % 16)]

/-- UTF-8 encoding of one character, matching Python `str.encode()`. -/
def utf8Char (c : Char) : List Nat :=
  let n := c.toNat
  if n < 128 then [n]
  else if n < 2048 then [192 + n / 64, 128 + n % 64]
  else if n < 65536 then [224 + n / 4096, 128 + (n / 64) % 64, 128 + n % 64]
  else [240 + n / 262144, 128 + (n / 4096) % 64, 128 + (n / 64) % 64, 128 + n % 64]

def utf8Bytes (s : String) : List Nat := s.data.flatMap utf8Char

/-- `hashlib.sha256(s.encode()).hexdigest()`: the lowercase-hex digest of
the UTF-8 encoding of `s`. -/
def hexdigest (s : String) : String := String.mk ((sha256 (utf8Bytes s)).flatMap hexByte)

/-! ## `json.dumps(..., sort_keys=True)` serialization

The Python code hashes `json.dumps` output of transaction and block dicts.
With `sort_keys=True` and default separators the output lists the keys in
ascending order as `"key": value` pairs joined by `", "`.  The characters
are escaped exactly as Python's `ensure_ascii=True` encoder does.
Braces in the string literals below are written `\x7b` / `\x7d`.
-/

def hexDigit4 (n : Nat) : String :=
  String.mk [hexDigit ((n / 4096) % 16), hexDigit ((n / 256) % 16),
             hexDigit ((n / 16) % 16), hexDigit (n % 16)]

/-- Escape one character as Python's JSON encoder (`ensure_ascii=True`) does. -/
def jsonEscapeChar (c : Char) : String :=
  let n := c.toNat
  if n = 34 then String.mk [Char.ofNat 92, Char.ofNat 34]
  else if n = 92 then String.mk [Char.ofNat 92, Char.ofNat 92]
  else if n = 8 then String.mk [Char.ofNat 92, Char.ofNat 98]
  else if n = 9 then String.mk [Char.ofNat 92, Char.ofNat 116]
  else if n = 10 then String.mk [Char.ofNat 92, Char.ofNat 110]
  else if n = 12 then String.mk [Char.ofNat 92, Char.ofNat 102]
  else if n = 13 then String.mk [Char.ofNat 92, Char.ofNat 114]
  else if n < 32 then String.mk [Char.ofNat 92, Char.ofNat 117] ++ hexDigit4 n
  else if n < 127 then String.mk [c]
  else if n < 65536 then String.mk [Char.ofNat 92, Char.ofNat 117] ++ hexDigit4 n
  else
    let m := n - 65536
    String.mk [Char.ofNat 92, Char.ofNat 117] ++ hexDigit4 (55296 + m / 1024) ++
    String.mk [Char.ofNat 92, Char.ofNat 117] ++ hexDigit4 (56320 + m % 1024)

/-- A JSON string literal: `"…"` with escaping. -/
def jsonStr (s : String) : String :=
  String.mk [Char.ofNat 34] ++ String.join (s.data.map jsonEscapeChar) ++ String.mk [Char.ofNat 34]

/-! ## Data model

`Transaction` and `Block` mirror the dicts built by
`SimulatedBlockchain.add_transaction` and `SimulatedBlockchain.create_block`.
A transaction always carries the ten keys `add_transaction` gives it
(`transaction_hash` is set right after the other nine).  Timestamps are
oracle-supplied strings: for a transaction the `datetime.now().isoformat()`
string, for a block the decimal rendering of the `time()` float exactly as
`json.dumps` would emit it.
-/

structure Transaction where
  sender : String
  recipient : String
  amount : Int
  details : String
  timestamp : String
  transaction_id : String
  gas_price : Nat
  gas_limit : Nat
  nonce : Nat
  transaction_hash : String
deriving DecidableEq, Repr

structure Block where
  index : Nat
  timestamp : String
  transactions : List Transaction
  proof : Nat
  previous_hash : String
  hash : String
deriving DecidableEq, Repr

/-- The `SimulatedBlockchain` instance state: the committed chain and the
pending pool (`current_transactions`). -/
structure BState where
  chain : List Block
  current_transactions : List Transaction
deriving DecidableEq, Repr

/-- Serialization of the nine-key transaction dict as it exists inside
`add_transaction` when `_hash_transaction(tx)` is called (keys sorted:
amount, details, gas_limit, gas_price, nonce, recipient, sender,
timestamp, transaction_id). -/
def txJsonPool (tx : Transaction) : String :=
  "\x7b\"amount\": " ++ toString tx.amount ++
  ", \"details\": " ++ jsonStr tx.details ++
  ", \"gas_limit\": " ++ toString tx.gas_limit ++
  ", \"gas_price\": " ++ toString tx.gas_price ++
  ", \"nonce\": " ++ toString tx.nonce ++
  ", \"recipient\": " ++ jsonStr tx.recipient ++
  ", \"sender\": " ++ jsonStr tx.sender ++
  ", \"timestamp\": " ++ jsonStr tx.timestamp ++
  ", \"transaction_id\": " ++ jsonStr tx.transaction_id ++ "\x7d"

/-- Serialization of the full ten-key transaction dict (as nested inside a
block): `transaction_hash` sorts between `timestamp` and `transaction_id`. -/
def txJsonFull (tx : Transaction) : String :=
  "\x7b\"amount\": " ++ toString tx.amount ++
  ", \"details\": " ++ jsonStr tx.details ++
  ", \"gas_limit\": " ++ toString tx.gas_limit ++
  ", \"gas_price\": " ++ toString tx.gas_price ++
  ", \"nonce\": " ++ toString tx.nonce ++
  ", \"recipient\": " ++ jsonStr tx.recipient ++
  ", \"sender\": " ++ jsonStr tx.sender ++
  ", \"timestamp\": " ++ jsonStr tx.timestamp ++
  ", \"transaction_hash\": " ++ jsonStr tx.transaction_hash ++
  ", \"transaction_id\": " ++ jsonStr tx.transaction_id ++ "\x7d"

def txListJson (txs : List Transaction) : String :=
  "[" ++ String.intercalate ", " (txs.map txJsonFull) ++ "]"

/-- The five-field dict serialized by `_generate_block_hash` (keys sorted:
index, previous_hash, proof, timestamp, transactions).  The block timestamp
is spliced in raw: it is the JSON rendering of the `time()` float. -/
def blockJsonCore (b : Block) : String :=
  "\x7b\"index\": " ++ toString b.index ++
  ", \"previous_hash\": " ++ jsonStr b.previous_hash ++
  ", \"proof\": " ++ toString b.proof ++
  ", \"timestamp\": " ++ b.timestamp ++
  ", \"transactions\": " ++ txListJson b.transactions ++ "\x7d"

/-- The full six-key block dict serialized by the static
`SimulatedBlockchain.hash` method (keys sorted: hash, index, previous_hash,
proof, timestamp, transactions). -/
def blockJsonFull (b : Block) : String :=
  "\x7b\"hash\": " ++ jsonStr b.hash ++
  ", \"index\": " ++ toString b.index ++
  ", \"previous_hash\": " ++ jsonStr b.previous_hash ++
  ", \"proof\": " ++ toString b.proof ++
  ", \"timestamp\": " ++ b.timestamp ++
  ", \"transactions\": " ++ txListJson b.transactions ++ "\x7d"

/-! ## `SimulatedBlockchain` operations -/

/-- `_hash_transaction` as invoked from `add_transaction`, on the nine-key
dict (the ten-key variants of this call in `create_block` and
`get_user_transactions` are dead: every pooled transaction already carries
`transaction_hash`). -/
def hash_transaction (tx : Transaction) : String := "0x" ++ hexdigest (txJsonPool tx)

/-- `_generate_block_hash`: digest of the five core fields. -/
def generate_block_hash (b : Block) : String := "0x" ++ hexdigest (blockJsonCore b)

/-- The static `SimulatedBlockchain.hash` method: digest of the full block
dict, including its stored `hash` field. -/
def hash_block (b : Block) : String := "0x" ++ hexdigest (blockJsonFull b)

/-- `_generate_transaction_id`: digest of a seed built from the clock and a
random component; the seed string is the oracle input. -/
def generate_transaction_id (seed : String) : String := "0x" ++ hexdigest seed

/-- `create_block(proof, previous_hash)`: builds the block from the full
pool, stores `hash = _generate_block_hash(block)`, clears the pool and
appends the block.  (Both call sites pass `previous_hash` explicitly, so
the `or self.hash(self.chain[-1])` fallback is not modeled.  The loop that
would add `transaction_hash`/`block_number` to transactions lacking a
`transaction_hash` never fires, since `add_transaction` always sets it.) -/
def create_block (s : BState) (proof : Nat) (previous_hash : String) (ts : String) :
    Block × BState :=
  let b0 : Block :=
    { index := s.chain.length + 1, timestamp := ts,
      transactions := s.current_transactions, proof := proof,
      previous_hash := previous_hash, hash := "" }
  let b := { b0 with hash := generate_block_hash b0 }
  (b, { chain := s.chain ++ [b], current_transactions := [] })

/-- `get_last_block`: `chain[-1] if chain else None`. -/
def get_last_block (s : BState) : Option Block := s.chain.getLast?

/-- The fixed previous-hash of the genesis block (`'0x' + '0' * 64`). -/
def genesis_sentinel : String :=
  "0x0000000000000000000000000000000000000000000000000000000000000000"

/-- `SimulatedBlockchain.__init__()` as invoked by the adapter: empty chain
and pool, then `create_block(proof=100, previous_hash='0x'+'0'*64)`. -/
def init_state (ts : String) : BState :=
  (create_block { chain := [], current_transactions := [] } 100 genesis_sentinel ts).2

/-- `add_transaction(sender, recipient, amount, details)`: builds the
transaction dict, sets its `transaction_hash`, appends it to the pool and
returns `get_last_block()['index'] + 1` (the code indexes the last block
unconditionally, so a nonempty chain is a precondition). -/
def pooled_tx (s : BState) (sender recipient : String) (amount : Int)
    (details ts seed : String) : Transaction :=
  let tx0 : Transaction :=
    { sender := sender, recipient := recipient, amount := amount,
      details := details, timestamp := ts,
      transaction_id := generate_transaction_id seed,
      gas_price := 20000000000, gas_limit := 21000,
      nonce := s.current_transactions.length + 1, transaction_hash := "" }
  { tx0 with transaction_hash := hash_transaction tx0 }

def add_transaction (s : BState) (sender recipient : String) (amount : Int)
    (details ts seed : String) (h : s.chain ≠ []) : Nat × BState :=
  ((s.chain.getLast h).index + 1,
   { s with current_transactions :=
       s.current_transactions ++ [pooled_tx s sender recipient amount details ts seed] })

/-- `valid_proof(last_proof, proof)`:
`sha256(f'{last_proof}{proof}').hexdigest()[:4] == "0000"`. -/
def valid_proof (last_proof proof : Nat) : Bool :=
  (hexdigest (toString last_proof ++ toString proof)).take 4 == "0000"

/-- `proof_of_work(last_proof)`: the while-loop searches `p = 0, 1, 2, …`
and returns the first valid proof; it terminates exactly when a valid
proof exists, and then returns the least one. -/
def proof_of_work (last_proof : Nat) (h : ∃ p, valid_proof last_proof p = true) : Nat :=
  Nat.find h

/-- `mine_block` with the nonce found by the proof-of-work search threaded
as an explicit parameter: `create_block(proof, self.hash(last_block))`.
Note the previous-hash argument is `hash_block` of the full last block
dict, not the last block's stored `hash` field. -/
def mine_block_with (s : BState) (h : s.chain ≠ []) (p : Nat) (ts : String) :
    Block × BState :=
  create_block s p (hash_block (s.chain.getLast h)) ts

/-- `mine_block()`: proof-of-work on the last block's proof, then
`create_block`. -/
def mine_block (s : BState) (h : s.chain ≠ [])
    (hp : ∃ p, valid_proof (s.chain.getLast h).proof p = true) (ts : String) :
    Block × BState :=
  mine_block_with s h (proof_of_work (s.chain.getLast h).proof hp) ts

/-- `get_balance(account_name)`: fold over all committed transactions,
adding the amount when the account is the recipient and subtracting it
when the account is the sender (no sentinel exemption, no floor). -/
def get_balance (s : BState) (name : String) : Int :=
  s.chain.foldl
    (fun bal b =>
      b.transactions.foldl
        (fun bal tx =>
          let bal := if tx.recipient == name then bal + tx.amount else bal
          if tx.sender == name then bal - tx.amount else bal)
        bal)
    0

/-! ## History query (`get_user_transactions`) -/

/-- The per-transaction context dict built by `get_user_transactions`.
The `tx.get('transaction_hash', …)` / `tx.get('timestamp', …)` /
`tx.get('gas_limit', …)` / `tx.get('gas_price', …)` defaults never fire:
every pooled transaction carries all ten keys. -/
structure TxView where
  sender : String
  recipient : String
  amount : Int
  details : String
  transaction_hash : String
  block_number : Nat
  block_index : Nat
  timestamp : String
  gas_used : Nat
  gas_price : Nat
  status : String
  confirmations : Int
deriving DecidableEq, Repr

/-- The membership test of the history scan:
`tx['recipient'] == account_name or tx['sender'] == account_name`. -/
def tx_match (name : String) (tx : Transaction) : Bool :=
  tx.recipient == name || tx.sender == name

def tx_view (chainLen : Nat) (b : Block) (tx : Transaction) : TxView :=
  { sender := tx.sender, recipient := tx.recipient, amount := tx.amount,
    details := tx.details, transaction_hash := tx.transaction_hash,
    block_number := b.index, block_index := b.index,
    timestamp := tx.timestamp, gas_used := tx.gas_limit,
    gas_price := tx.gas_price, status := "confirmed",
    confirmations := (chainLen : Int) - (b.index : Int) + 1 }

/-- Inner loop of `get_user_transactions` over one block's transactions
(already reversed).  After every transaction the code tests
`len(transactions) >= limit` and returns early; the Bool records whether
that early return fired. -/
def scan_txs (name : String) (limit : Int) (chainLen : Nat) (b : Block) :
    List Transaction → List TxView → List TxView × Bool
  | [], acc => (acc, false)
  | tx :: rest, acc =>
    let acc' := if tx_match name tx then acc ++ [tx_view chainLen b tx] else acc
    if limit ≤ (acc'.length : Int) then (acc', true)
    else scan_txs name limit chainLen b rest acc'

/-- Outer loop of `get_user_transactions` over `reversed(self.chain)`. -/
def scan_blocks (name : String) (limit : Int) (chainLen : Nat) :
    List Block → List TxView → List TxView
  | [], acc => acc
  | b :: rest, acc =>
    match scan_txs name limit chainLen b b.transactions.reverse acc with
    | (acc', true) => acc'
    | (acc', false) => scan_blocks name limit chainLen rest acc'

/-- `get_user_transactions(account_name, limit)`: scans committed blocks
newest-first (and within each block newest-first), collecting transactions
whose sender or recipient is the account, stopping once the result length
reaches `limit`.  The pending pool is never consulted. -/
def get_user_transactions (s : BState) (name : String) (limit : Int) : List TxView :=
  scan_blocks name limit s.chain.length s.chain.reverse []

/-! ## `BlockchainAdapter` (simulated backend)

With Brownie unavailable the adapter holds a `SimulatedBlockchain` and, for
mutating calls, pools one transaction and immediately mines a block.
-/

/-- `BlockchainAdapter.add_transaction` in simulated mode:
`result = sim.add_transaction(...)`; `sim.mine_block()`; `return result`. -/
def adapter_add_transaction (s : BState) (sender recipient : String) (amount : Int)
    (details ts seed tsB : String) (h : s.chain ≠ [])
    (hp : ∃ p, valid_proof (s.chain.getLast h).proof p = true) : Nat × BState :=
  let r := add_transaction s sender recipient amount details ts seed h
  (r.1, (mine_block r.2 h hp tsB).2)

/-- `BlockchainAdapter.issue_credits` in simulated mode:
`sim.add_transaction('system', recipient, amount, details)`;
`sim.mine_block()`; `return True` (the except-branch is unreachable in the
embedding). -/
def adapter_issue_credits (s : BState) (recipient : String) (amount : Int)
    (details ts seed tsB : String) (h : s.chain ≠ [])
    (hp : ∃ p, valid_proof (s.chain.getLast h).proof p = true) : Bool × BState :=
  let r := add_transaction s "system" recipient amount details ts seed h
  (true, (mine_block r.2 h hp tsB).2)

/-- `BlockchainAdapter.freeze_account` in simulated mode: logs
"Account freezing not supported in simulated mode" and returns `False`
without touching any state. -/
def adapter_freeze_account (_frozen : Bool) : Bool := false

/-! ## Application layer (`proto_v3_migrated.py`)

`APP_DATA` holds the user registry (with the `frozen` flag toggled by the
`/freeze-account` route) and the quota table; the ledger lives behind the
adapter.
-/

structure UserRec where
  role : String
  frozen : Bool
deriving DecidableEq, Repr

structure AppState where
  users : List (String × UserRec)
  quotas : List (String × Int)
  ledger : BState
deriving DecidableEq, Repr

/-- `APP_DATA['users'][name]['frozen'] = v` on an association list. -/
def set_frozen_flag : List (String × UserRec) → String → Bool → List (String × UserRec)
  | [], _, _ => []
  | (n, u) :: rest, name, v =>
    if n = name then (n, { u with frozen := v }) :: rest
    else (n, u) :: set_frozen_flag rest name v

/-- `users.get(name, {}).get('frozen', False)`. -/
def user_frozen (st : AppState) (name : String) : Bool :=
  ((st.users.lookup name).map UserRec.frozen).getD false

/-- The `/freeze-account` route: if the user exists, toggle its frozen
flag (`frozen = not users[name].get('frozen', False)`); otherwise no-op. -/
def freeze_account_route (st : AppState) (username : String) : AppState :=
  match st.users.lookup username with
  | none => st
  | some u => { st with users := set_frozen_flag st.users username (!u.frozen) }

/-- Dict assignment `quotas[name] = q` on an association list. -/
def set_quota_val : List (String × Int) → String → Int → List (String × Int)
  | [], name, q => [(name, q)]
  | (n, v) :: rest, name, q =>
    if n = name then (n, q) :: rest else (n, v) :: set_quota_val rest name q

/-- The `/set-factory-quota` route: `APP_DATA['quotas'][factory_name] = quota`. -/
def set_factory_quota (st : AppState) (factory_name : String) (quota : Int) : AppState :=
  { st with quotas := set_quota_val st.quotas factory_name quota }

/-- Result of the `/buy-credit` route, by flash message.  The
`accountFrozen` constructor is the rejection the specification prescribes
for frozen parties; the code never produces it (no freeze check exists on
this path). -/
inductive BuyResult where
  | invalidAmount
  | quotaExceeded
  | insufficientBalance
  | accountFrozen
  | success (block_index : Nat)
deriving DecidableEq, Repr

/-- The `/buy-credit` route body: parse the amount (`none` models an
`int()` failure), check `quotas.get(buyer)` (reject when set and exceeded),
check the seller's balance, then execute
`blockchain_adapter.add_transaction(seller, buyer, amount, "Credit purchase")`.
No frozen check appears anywhere on this path. -/
def buy_credit (st : AppState) (buyer seller : String) (amountRaw : Option Int)
    (ts seed tsB : String) (h : st.ledger.chain ≠ [])
    (hp : ∃ p, valid_proof (st.ledger.chain.getLast h).proof p = true) :
    BuyResult × AppState :=
  match amountRaw with
  | none => (.invalidAmount, st)
  | some amount =>
    let quotaExceeded : Bool :=
      match st.quotas.lookup buyer with
      | some q => decide (q < amount)
      | none => false
    if quotaExceeded then (.quotaExceeded, st)
    else if get_balance st.ledger seller < amount then (.insufficientBalance, st)
    else
      let r := adapter_add_transaction st.ledger seller buyer amount
        "Credit purchase" ts seed tsB h hp
      (.success r.1, { st with ledger := r.2 })

/-! ## Reachability

`Reachable` closes the initial state (`SimulatedBlockchain()` construction,
which mines the genesis block) under the two mutating operations.  The
`mine` step admits any nonce satisfying `valid_proof`; the code's
`proof_of_work` returns the least such nonce (`mine_block_reachable`
below), so every state an execution reaches is `Reachable`.  Concrete
states used as counterexamples are built with the nonce the search
actually finds (35293 for the genesis proof 100, then 35089).
-/

inductive Reachable : BState → Prop
  | init (ts : String) : Reachable (init_state ts)
  | add (s : BState) (sender recipient : String) (amount : Int)
      (details ts seed : String) (h : s.chain ≠ []) :
      Reachable s →
      Reachable (add_transaction s sender recipient amount details ts seed h).2
  | mine (s : BState) (p : Nat) (ts : String) (h : s.chain ≠ []) :
      Reachable s → valid_proof (s.chain.getLast h).proof p = true →
      Reachable (mine_block_with s h p ts).2

/-- The state produced by the real `mine_block` (nonce found by
`proof_of_work`) is `Reachable`. -/
theorem mine_block_reachable (s : BState) (h : s.chain ≠ [])
    (hp : ∃ p, valid_proof (s.chain.getLast h).proof p = true) (ts : String)
    (hs : Reachable s) : Reachable (mine_block s h hp ts).2 :=
  Reachable.mine s (proof_of_work (s.chain.getLast h).proof hp) ts h hs (Nat.find_spec hp)

/-- States reachable through the simulated-mode adapter interface alone
(every mutating call pools one transaction and immediately mines). -/
inductive AdapterReachable : BState → Prop
  | init (ts : String) : AdapterReachable (init_state ts)
  | add (s : BState) (sender recipient : String) (amount : Int)
      (details ts seed tsB : String) (h : s.chain ≠ [])
      (hp : ∃ p, valid_proof (s.chain.getLast h).proof p = true) :
      AdapterReachable s →
      AdapterReachable (adapter_add_transaction s sender recipient amount details ts seed tsB h hp).2
  | issue (s : BState) (recipient : String) (amount : Int)
      (details ts seed tsB : String) (h : s.chain ≠ [])
      (hp : ∃ p, valid_proof (s.chain.getLast h).proof p = true) :
      AdapterReachable s →
      AdapterReachable (adapter_issue_credits s recipient amount details ts seed tsB h hp).2
  | mine (s : BState) (h : s.chain ≠ [])
      (hp : ∃ p, valid_proof (s.chain.getLast h).proof p = true) (ts : String) :
      AdapterReachable s → AdapterReachable (mine_block s h hp ts).2

/-! ## Specification-side definitions

These follow the wording of the specification sentences the claims quote;
they are compared against the operational definitions above.
-/

/-- All committed transactions, in chain order. -/
def committed_txs (s : BState) : List Transaction :=
  s.chain.flatMap Block.transactions

/-- Sum of amounts of committed transactions whose recipient is `a`. -/
def spec_credits (s : BState) (a : String) : Int :=
  (((committed_txs s).filter fun tx => tx.recipient == a).map Transaction.amount).sum

/-- Sum of amounts of committed transactions whose sender is `a`. -/
def spec_debits (s : BState) (a : String) : Int :=
  (((committed_txs s).filter fun tx => tx.sender == a).map Transaction.amount).sum

/-- The only sentinel pseudo-account the code ever uses as an issuing
sender is `'system'` (`BlockchainAdapter.issue_credits`). -/
def is_sentinel (n : String) : Bool := n == "system"

/-- Claim C1 as stated: the balance invariant of the specification,
with sentinel senders exempt from debits and a floor at zero. -/
def balance_claim : Prop :=
  ∀ s, Reachable s → ∀ a,
    get_balance s a = spec_credits s a - (if is_sentinel a then 0 else spec_debits s a) ∧
    0 ≤ get_balance s a

/-- Per-transaction effect of `get_balance`'s inner loop on the running
balance. -/
def tx_delta (a : String) (tx : Transaction) : Int :=
  (if tx.recipient == a then tx.amount else 0) - (if tx.sender == a then tx.amount else 0)

def default_block : Block :=
  { index := 0, timestamp := "", transactions := [], proof := 0,
    previous_hash := "", hash := "" }

/-- `i`-th block of the chain (defaulted, for stating indexed invariants). -/
def blk (s : BState) (i : Nat) : Block := s.chain.getD i default_block

/-- Claim C2 as stated: hash-chain linkage through the stored `hash`
field, the genesis sentinel, and the stored hash being determined by the
five core fields. -/
def chain_linkage_claim : Prop :=
  ∀ s, Reachable s →
    (∀ i, i + 1 < s.chain.length → (blk s (i + 1)).previous_hash = (blk s i).hash) ∧
    (s.chain ≠ [] → (blk s 0).previous_hash = genesis_sentinel) ∧
    (∀ i, i < s.chain.length → (blk s i).hash = generate_block_hash (blk s i))

/-! ## Chain-shape invariants -/

/-- Structural chain invariant: starting from expected previous-hash `ph`,
every block stores `ph` as `previous_hash`, stores
`_generate_block_hash` of its own core fields as `hash`, and hands
`SimulatedBlockchain.hash` of itself (the full dict) to its successor. -/
def Linked : String → List Block → Prop
  | _, [] => True
  | ph, b :: rest =>
    b.previous_hash = ph ∧ b.hash = generate_block_hash b ∧ Linked (hash_block b) rest

/-- Block indices count up from `n`. -/
def IndexedFrom : Nat → List Block → Prop
  | _, [] => True
  | n, b :: rest => b.index = n ∧ IndexedFrom (n + 1) rest

theorem generate_block_hash_hash_irrel (b : Block) (x : String) :
    generate_block_hash { b with hash := x } = generate_block_hash b := rfl

theorem linked_append_singleton {ph : String} {l : List Block} (b : Block)
    (hl : Linked ph l) (hne : l ≠ [])
    (hprev : b.previous_hash = hash_block (l.getLast hne))
    (hhash : b.hash = generate_block_hash b) : Linked ph (l ++ [b]) := by
  induction l generalizing ph with
  | nil => exact absurd rfl hne
  | cons x xs ih =>
    obtain ⟨h1, h2, h3⟩ := hl
    cases xs with
    | nil =>
      refine ⟨h1, h2, ?_, hhash, trivial⟩
      simpa using hprev
    | cons y ys =>
      refine ⟨h1, h2, ih h3 (by simp) ?_⟩
      simpa [List.getLast_cons] using hprev

theorem indexedFrom_append_singleton {n : Nat} {l : List Block} (b : Block)
    (hl : IndexedFrom n l) (hb : b.index = n + l.length) :
    IndexedFrom n (l ++ [b]) := by
  induction l generalizing n with
  | nil => exact ⟨by simpa using hb, trivial⟩
  | cons x xs ih =>
    obtain ⟨h1, h2⟩ := hl
    exact ⟨h1, ih h2 (by simpa [Nat.add_assoc, Nat.add_comm 1] using hb)⟩

theorem add_transaction_chain (s : BState) (sender recipient : String) (amount : Int)
    (details ts seed : String) (h : s.chain ≠ []) :
    (add_transaction s sender recipient amount details ts seed h).2.chain = s.chain := rfl

theorem mine_block_with_chain (s : BState) (h : s.chain ≠ []) (p : Nat) (ts : String) :
    (mine_block_with s h p ts).2.chain = s.chain ++ [(mine_block_with s h p ts).1] := rfl

/-- Every reachable state has a nonempty chain satisfying the structural
linkage and indexing invariants. -/
theorem reachable_inv (s : BState) (hr : Reachable s) :
    s.chain ≠ [] ∧ Linked genesis_sentinel s.chain ∧ IndexedFrom 1 s.chain := by
  induction hr with
  | init ts =>
    refine ⟨by simp [init_state, create_block], ?_, ?_⟩
    · exact ⟨rfl, rfl, trivial⟩
    · exact ⟨rfl, trivial⟩
  | add s sender recipient amount details ts seed h hs ih =>
    simpa [add_transaction_chain] using ih
  | mine s p ts h hs hv ih =>
    obtain ⟨hne, hlink, hidx⟩ := ih
    refine ⟨by simp [mine_block_with, create_block], ?_, ?_⟩
    · exact linked_append_singleton _ hlink hne rfl rfl
    · exact indexedFrom_append_singleton _ hidx (by simp [mine_block_with, create_block, Nat.add_comm])

theorem linked_getD_succ {l : List Block} {ph : String} (hl : Linked ph l) :
    ∀ i, i + 1 < l.length →
      (l.getD (i + 1) default_block).previous_hash = hash_block (l.getD i default_block) := by
  induction l generalizing ph with
  | nil => intro i hi; simp at hi
  | cons b rest ih =>
    intro i hi
    obtain ⟨h1, h2, h3⟩ := hl
    cases i with
    | zero =>
      cases rest with
      | nil => simp at hi
      | cons c cs => exact h3.1
    | succ j => exact ih h3 j (by simpa using hi)

theorem linked_getD_hash {l : List Block} {ph : String} (hl : Linked ph l) :
    ∀ i, i < l.length →
      (l.getD i default_block).hash = generate_block_hash (l.getD i default_block) := by
  induction l generalizing ph with
  | nil => intro i hi; simp at hi
  | cons b rest ih =>
    intro i hi
    obtain ⟨h1, h2, h3⟩ := hl
    cases i with
    | zero => exact h2
    | succ j => exact ih h3 j (by simpa using hi)

theorem linked_head_prev {l : List Block} {ph : String} (hl : Linked ph l) (h : l ≠ []) :
    (l.getD 0 default_block).previous_hash = ph := by
  cases l with
  | nil => exact absurd rfl h
  | cons b rest => exact hl.1

theorem indexedFrom_getLast {l : List Block} :
    ∀ n (h : l ≠ []), IndexedFrom n l → (l.getLast h).index = n + l.length - 1 := by
  induction l with
  | nil => intro n h; exact absurd rfl h
  | cons b rest ih =>
    intro n h hidx
    cases rest with
    | nil => simpa using hidx.1
    | cons c cs =>
      have := ih (n + 1) (by simp) hidx.2
      rw [List.getLast_cons (by simp)]
      simp only [this, List.length_cons]
      omega

/-- In a reachable state the last block's index equals the chain length. -/
theorem reachable_getLast_index (s : BState) (hr : Reachable s) (h : s.chain ≠ []) :
    (s.chain.getLast h).index = s.chain.length := by
  have := indexedFrom_getLast 1 h (reachable_inv s hr).2.2
  have hpos : 0 < s.chain.length := List.length_pos.mpr h
  omega

/-! ## Balance as a signed sum -/

theorem inner_fold_delta (a : String) (txs : List Transaction) (b0 : Int) :
    txs.foldl
      (fun bal tx =>
        if tx.sender == a then (if tx.recipient == a then bal + tx.amount else bal) - tx.amount
        else if tx.recipient == a then bal + tx.amount else bal)
      b0 = b0 + ((txs.map (tx_delta a)).sum) := by
  induction txs generalizing b0 with
  | nil => simp
  | cons tx rest ih =>
    simp only [List.foldl_cons, List.map_cons, List.sum_cons, ih]
    by_cases h1 : tx.recipient == a <;> by_cases h2 : tx.sender == a <;>
      simp [tx_delta, h1, h2] <;> ring

theorem get_balance_eq_delta_sum (s : BState) (a : String) :
    get_balance s a = ((committed_txs s).map (tx_delta a)).sum := by
  unfold get_balance committed_txs
  generalize s.chain = l
  induction l using List.reverseRecOn with
  | nil => simp
  | append_singleton bs b ih =>
    simp only [List.foldl_append, List.foldl_cons, List.foldl_nil, List.flatMap_append,
      List.flatMap_cons, List.flatMap_nil, List.append_nil, List.map_append, List.sum_append]
    rw [inner_fold_delta, ih]

theorem delta_sum_split (a : String) (l : List Transaction) :
    ((l.map (tx_delta a)).sum) =
      ((l.filter fun tx => tx.recipient == a).map Transaction.amount).sum -
      ((l.filter fun tx => tx.sender == a).map Transaction.amount).sum := by
  induction l with
  | nil => simp
  | cons tx rest ih =>
    by_cases h1 : tx.recipient == a <;> by_cases h2 : tx.sender == a <;>
      simp [tx_delta, h1, h2, ih] <;> ring

/-- Claim C1 (amended): for every state and account, `get_balance` equals
the sum of committed amounts received minus the sum of committed amounts
sent — with no sentinel exemption on the debit side and no floor at zero
(the value is negative for `'system'` after any issuance). -/
theorem get_balance_signed_sum (s : BState) (a : String) :
    get_balance s a = spec_credits s a - spec_debits s a := by
  rw [get_balance_eq_delta_sum, spec_credits, spec_debits, delta_sum_split]

/-! ## Concrete reachable states

The scenario mirrors the application's bootstrap: issuance of 100 credits
from `'system'` to the producer, committed by mining.  35293 is the nonce
`proof_of_work(100)` actually finds, and 35089 the nonce found for 35293.
-/

theorem validProof_100_35293 : valid_proof 100 35293 = true := by decide

theorem validProof_35293_35089 : valid_proof 35293 35089 = true := by decide

def cex_base : BState := init_state "1700000000.0"

theorem cex_base_ne : cex_base.chain ≠ [] := by
  simp [cex_base, init_state, create_block]

def cex_pool : BState :=
  (add_transaction cex_base "system" "SomnathProducers" 100
    "Initial credit allocation" "2026-01-01T00:00:00" "1700000050.05555" cex_base_ne).2

def cex_mined : BState := (mine_block_with cex_pool cex_base_ne 35293 "1700000100.0").2

theorem cex_mined_reachable : Reachable cex_mined :=
  Reachable.mine cex_pool 35293 "1700000100.0" cex_base_ne
    (Reachable.add cex_base "system" "SomnathProducers" 100
      "Initial credit allocation" "2026-01-01T00:00:00" "1700000050.05555" cex_base_ne
      (Reachable.init "1700000000.0"))
    validProof_100_35293

/-- Claim C1 counterexample: in the reachable state holding one committed
issuance of 100 from `'system'`, `get_balance('system')` is `-100`: the
code debits the sentinel sender and returns a negative balance, violating
both the sentinel exemption and the floor of the claimed invariant. -/
theorem balance_claim_counterexample : ¬ balance_claim := by
  intro hcl
  have h := (hcl cex_mined cex_mined_reachable "system").2
  have hv : get_balance cex_mined "system" = -100 := by decide
  rw [hv] at h
  exact absurd h (by decide)

/-- Claim C2 (amended): the linkage invariant that actually holds.  Each
block's `previous_hash` is `SimulatedBlockchain.hash` of the *entire*
preceding block dict (its stored `hash` field included) — a deterministic
hash of the predecessor, but not equal to the predecessor's stored `hash`
field, which is `_generate_block_hash` over the five core fields only.
Genesis carries the fixed sentinel, and every stored `hash` is the
deterministic `_generate_block_hash` of the block's own
`{index, timestamp, transactions, proof, previous_hash}`. -/
theorem chain_linkage_amended (s : BState) (hr : Reachable s) :
    (∀ i, i + 1 < s.chain.length → (blk s (i + 1)).previous_hash = hash_block (blk s i)) ∧
    (s.chain ≠ [] → (blk s 0).previous_hash = genesis_sentinel) ∧
    (∀ i, i < s.chain.length → (blk s i).hash = generate_block_hash (blk s i)) := by
  obtain ⟨hne, hlink, hidx⟩ := reachable_inv s hr
  exact ⟨fun i hi => linked_getD_succ hlink i hi,
    fun h => linked_head_prev hlink h,
    fun i hi => linked_getD_hash hlink i hi⟩

/-- The reachable two-block state used to settle C2: genesis, then one
empty mined block (nonce 35293 is the value `proof_of_work(100)` finds). -/
def cexA : BState := (mine_block_with cex_base cex_base_ne 35293 "1700000100.0").2

theorem cexA_reachable : Reachable cexA :=
  Reachable.mine cex_base 35293 "1700000100.0" cex_base_ne
    (Reachable.init "1700000000.0") validProof_100_35293

/-- Witness for the amended C2 at the concrete two-block state: block 2's
`previous_hash` equals the full-dict hash of block 1. -/
theorem chain_linkage_amended_witness :
    (blk cexA 1).previous_hash = hash_block (blk cexA 0) :=
  (chain_linkage_amended cexA cexA_reachable).1 0 (by decide)

set_option maxHeartbeats 4000000 in
/-- Claim C2 counterexample: in the reachable two-block state, block 2's
`previous_hash` (SHA-256 of the full genesis dict, hash field included) is
not the genesis block's stored `hash` (SHA-256 of the five core fields):
`mine_block` passes `self.hash(last_block)` to `create_block`, a different
digest than the one stored on the block. -/
theorem chain_linkage_counterexample : ¬ chain_linkage_claim := by
  intro hcl
  have h := (hcl cexA cexA_reachable).1 0 (by decide)
  exact absurd h (by decide)

/-! ## Transfer-path results (`/buy-credit`) -/

/-- Claim C3: when the quota check passes and the seller's balance is
strictly below the requested amount, `buy_credit` rejects with the
insufficient-credits flash and returns the state unchanged: nothing is
appended to the pool, chain, or balances. -/
theorem buy_credit_insufficient_balance (st : AppState) (buyer seller : String)
    (amount : Int) (ts seed tsB : String) (h : st.ledger.chain ≠ [])
    (hp : ∃ p, valid_proof (st.ledger.chain.getLast h).proof p = true)
    (hq : match st.quotas.lookup buyer with | some q => amount ≤ q | none => True)
    (hb : get_balance st.ledger seller < amount) :
    buy_credit st buyer seller (some amount) ts seed tsB h hp =
      (.insufficientBalance, st) := by
  cases hql : st.quotas.lookup buyer with
  | none => simp [buy_credit, hql, hb]
  | some q =>
    rw [hql] at hq
    simp [buy_credit, hql, hb, not_lt.mpr hq]

/-- Claim C6: a transfer whose buying account has a quota set and whose
amount exceeds it is rejected with the quota flash and the state is
returned unchanged (no transaction is appended). -/
theorem buy_credit_quota_exceeded (st : AppState) (buyer seller : String)
    (amount q : Int) (ts seed tsB : String) (h : st.ledger.chain ≠ [])
    (hp : ∃ p, valid_proof (st.ledger.chain.getLast h).proof p = true)
    (hql : st.quotas.lookup buyer = some q) (hgt : q < amount) :
    buy_credit st buyer seller (some amount) ts seed tsB h hp = (.quotaExceeded, st) := by
  simp [buy_credit, hql, hgt]

/-- Claim C5 (amended): the transfer path never consults the frozen flag.
Even when the sender or recipient is frozen, a transfer passing the quota
and balance checks succeeds and returns the upcoming block index. -/
theorem buy_credit_ignores_frozen (st : AppState) (X buyer seller : String)
    (amount : Int) (ts seed tsB : String) (h : st.ledger.chain ≠ [])
    (hp : ∃ p, valid_proof (st.ledger.chain.getLast h).proof p = true)
    (_hf : user_frozen st X = true) (_hX : seller = X ∨ buyer = X)
    (hq : match st.quotas.lookup buyer with | some q => amount ≤ q | none => True)
    (hb : ¬ get_balance st.ledger seller < amount) :
    (buy_credit st buyer seller (some amount) ts seed tsB h hp).1 =
      .success ((st.ledger.chain.getLast h).index + 1) := by
  cases hql : st.quotas.lookup buyer with
  | none => simp [buy_credit, hql, hb, adapter_add_transaction, add_transaction]
  | some q =>
    rw [hql] at hq
    simp [buy_credit, hql, hb, not_lt.mpr hq, adapter_add_transaction, add_transaction]

/-! ### Concrete application states for C3, C5, C6 -/

def w_app_base : AppState :=
  { users := [("SomnathProducers", { role := "Producer", frozen := false }),
              ("Ammonia Factory", { role := "Factory", frozen := false })],
    quotas := [], ledger := cex_base }

theorem w_app_base_ne : w_app_base.ledger.chain ≠ [] := cex_base_ne

theorem w_app_base_pow : ∃ p,
    valid_proof (w_app_base.ledger.chain.getLast w_app_base_ne).proof p = true :=
  ⟨35293, validProof_100_35293⟩

/-- Witness for C3 at the Scenario-3 inputs: a purchase of 10000 from a
producer whose balance is 0 is rejected with `insufficientBalance` and the
state is unchanged. -/
theorem buy_credit_insufficient_balance_witness :
    buy_credit w_app_base "Ammonia Factory" "SomnathProducers" (some 10000)
      "2026-01-01T00:00:00" "1700000050.05555" "1700000100.0"
      w_app_base_ne w_app_base_pow = (.insufficientBalance, w_app_base) :=
  buy_credit_insufficient_balance w_app_base "Ammonia Factory" "SomnathProducers"
    10000 "2026-01-01T00:00:00" "1700000050.05555" "1700000100.0"
    w_app_base_ne w_app_base_pow trivial (by decide)

/-- Scenario-5 state: the Government sets a consumption quota of 50 for
the factory. -/
def w_app_quota : AppState := set_factory_quota w_app_base "Ammonia Factory" 50

/-- Witness for C6 at the Scenario-5 inputs: with quota 50 set for the
buying factory, a purchase of 60 is rejected with `quotaExceeded`. -/
theorem buy_credit_quota_exceeded_witness :
    buy_credit w_app_quota "Ammonia Factory" "SomnathProducers" (some 60)
      "2026-01-01T00:00:00" "1700000050.05555" "1700000100.0"
      w_app_base_ne w_app_base_pow = (.quotaExceeded, w_app_quota) :=
  buy_credit_quota_exceeded w_app_quota "Ammonia Factory" "SomnathProducers"
    60 50 "2026-01-01T00:00:00" "1700000050.05555" "1700000100.0"
    w_app_base_ne w_app_base_pow (by decide) (by decide)

/-- Application state over the committed issuance (`cex_mined`, producer
balance 100), before freezing. -/
def c5_app : AppState :=
  { users := [("SomnathProducers", { role := "Producer", frozen := false }),
              ("Ammonia Factory", { role := "Factory", frozen := false })],
    quotas := [], ledger := cex_mined }

/-- State after the `/freeze-account` route toggles the producer frozen. -/
def c5_frozen : AppState := freeze_account_route c5_app "SomnathProducers"

theorem c5_frozen_ne : c5_frozen.ledger.chain ≠ [] := by decide

theorem c5_frozen_pow : ∃ p,
    valid_proof (c5_frozen.ledger.chain.getLast c5_frozen_ne).proof p = true :=
  ⟨35089, validProof_35293_35089⟩

/-- Claim C5 as stated: freezing an account makes every transfer with that
account as sender or recipient return the frozen rejection, and unfreezing
restores success under valid balance. -/
def freeze_claim : Prop :=
  (∀ (st : AppState) (X buyer seller : String) (amount : Int)
      (ts seed tsB : String) (h : st.ledger.chain ≠ [])
      (hp : ∃ p, valid_proof (st.ledger.chain.getLast h).proof p = true),
    user_frozen st X = true → (seller = X ∨ buyer = X) →
    (buy_credit st buyer seller (some amount) ts seed tsB h hp).1 = .accountFrozen) ∧
  (∀ (st : AppState) (X buyer seller : String) (amount : Int)
      (ts seed tsB : String) (h : st.ledger.chain ≠ [])
      (hp : ∃ p, valid_proof (st.ledger.chain.getLast h).proof p = true),
    user_frozen st X = false → (seller = X ∨ buyer = X) →
    (match st.quotas.lookup buyer with | some q => amount ≤ q | none => True) →
    ¬ get_balance st.ledger seller < amount →
    ∃ idx, (buy_credit st buyer seller (some amount) ts seed tsB h hp).1 = .success idx)

/-- Witness for the amended C5: with the producer frozen by the freeze
route, a purchase of 10 against its balance of 100 still succeeds,
returning the upcoming block index 3. -/
theorem buy_credit_ignores_frozen_witness :
    (buy_credit c5_frozen "Ammonia Factory" "SomnathProducers" (some 10)
      "2026-01-01T00:10:00" "1700000200.07777" "1700000300.0"
      c5_frozen_ne c5_frozen_pow).1 =
      .success ((c5_frozen.ledger.chain.getLast c5_frozen_ne).index + 1) :=
  buy_credit_ignores_frozen c5_frozen "SomnathProducers" "Ammonia Factory"
    "SomnathProducers" 10 "2026-01-01T00:10:00" "1700000200.07777" "1700000300.0"
    c5_frozen_ne c5_frozen_pow (by decide) (Or.inl rfl) trivial (by decide)

/-- Claim C5 counterexample: in the frozen-producer state the transfer
does not return `accountFrozen` — it succeeds, because `buy_credit` checks
only quota and balance (and `freeze_account` of the simulated adapter is a
no-op returning `False`). -/
theorem freeze_claim_counterexample : ¬ freeze_claim := by
  intro hcl
  obtain ⟨hcl1, -⟩ := hcl
  have h := hcl1 c5_frozen "SomnathProducers" "Ammonia Factory" "SomnathProducers"
    10 "2026-01-01T00:10:00" "1700000200.07777" "1700000300.0"
    c5_frozen_ne c5_frozen_pow (by decide) (Or.inl rfl)
  have hs : (buy_credit c5_frozen "Ammonia Factory" "SomnathProducers" (some 10)
      "2026-01-01T00:10:00" "1700000200.07777" "1700000300.0"
      c5_frozen_ne c5_frozen_pow).1 = .success 3 := by decide
  rw [hs] at h
  exact absurd h (by decide)

/-! ## C7: the value returned by `add_transaction` -/

/-- Claim C7 as stated: a successful `add_transaction` returns the id of
the transaction it constructed and appended (compared against the Python
`int` return value rendered as a string, since the transaction id is a
string). -/
def txid_claim : Prop :=
  ∀ (s : BState), Reachable s →
    ∀ (sender recipient : String) (amount : Int) (details ts seed : String)
      (h : s.chain ≠ []),
    ∃ tx, (add_transaction s sender recipient amount details ts seed h).2.current_transactions =
        s.current_transactions ++ [tx] ∧
      toString (add_transaction s sender recipient amount details ts seed h).1 =
        tx.transaction_id

/-- The transaction `add_transaction` appends at the genesis state for the
issuance inputs. -/
def c7_tx : Transaction :=
  let tx0 : Transaction :=
    { sender := "system", recipient := "SomnathProducers", amount := 100,
      details := "Initial credit allocation", timestamp := "2026-01-01T00:00:00",
      transaction_id := generate_transaction_id "1700000050.05555",
      gas_price := 20000000000, gas_limit := 21000, nonce := 1,
      transaction_hash := "" }
  { tx0 with transaction_hash := hash_transaction tx0 }

/-- Claim C7 counterexample: at the genesis state the call returns the
`int` 2 (`get_last_block()['index'] + 1`, a block index), while the
appended transaction's id is a 0x-prefixed SHA-256 hex string — the
returned value is not the transaction's identifier. -/
theorem txid_claim_counterexample : ¬ txid_claim := by
  intro hcl
  obtain ⟨tx, hpool, heq⟩ := hcl cex_base (Reachable.init "1700000000.0")
    "system" "SomnathProducers" 100 "Initial credit allocation"
    "2026-01-01T00:00:00" "1700000050.05555" cex_base_ne
  have h2 : (add_transaction cex_base "system" "SomnathProducers" 100
      "Initial credit allocation" "2026-01-01T00:00:00" "1700000050.05555"
      cex_base_ne).2.current_transactions =
      cex_base.current_transactions ++ [c7_tx] := rfl
  have htx : tx = c7_tx := by
    have := List.append_cancel_left (hpool.symm.trans h2)
    simpa using this
  rw [htx] at heq
  exact absurd heq (by decide)

/-- Claim C7 (amended): the returned value is the index of the block the
transaction will be committed into: it equals the last block's index plus
one, and the block produced by the next `mine_block` carries exactly that
index and contains the appended transaction. -/
theorem add_transaction_returns_block_index (s : BState) (hr : Reachable s)
    (sender recipient : String) (amount : Int) (details ts seed : String)
    (h : s.chain ≠ [])
    (hp : ∃ p, valid_proof (s.chain.getLast h).proof p = true) (tsB : String) :
    (add_transaction s sender recipient amount details ts seed h).1 =
      (s.chain.getLast h).index + 1 ∧
    (mine_block (add_transaction s sender recipient amount details ts seed h).2 h hp tsB).1.index =
      (add_transaction s sender recipient amount details ts seed h).1 ∧
    ∃ tx, (add_transaction s sender recipient amount details ts seed h).2.current_transactions =
        s.current_transactions ++ [tx] ∧
      tx ∈ (mine_block (add_transaction s sender recipient amount details ts seed h).2 h hp tsB).1.transactions := by
  refine ⟨rfl, ?_, ?_⟩
  · show s.chain.length + 1 = (s.chain.getLast h).index + 1
    rw [reachable_getLast_index s hr h]
  · refine ⟨_, rfl, ?_⟩
    show _ ∈ s.current_transactions ++ [_]
    exact List.mem_append_right _ (List.mem_singleton_self _)

/-- Witness for the amended C7 at the genesis state: the issuance call
returns 2, the index of the block the next `mine_block` produces, which
contains the appended transaction. -/
theorem add_transaction_returns_block_index_witness :
    (add_transaction cex_base "system" "SomnathProducers" 100
        "Initial credit allocation" "2026-01-01T00:00:00" "1700000050.05555"
        cex_base_ne).1 =
      (cex_base.chain.getLast cex_base_ne).index + 1 ∧
    (mine_block (add_transaction cex_base "system" "SomnathProducers" 100
        "Initial credit allocation" "2026-01-01T00:00:00" "1700000050.05555"
        cex_base_ne).2 cex_base_ne ⟨35293, validProof_100_35293⟩ "1700000100.0").1.index =
      (add_transaction cex_base "system" "SomnathProducers" 100
        "Initial credit allocation" "2026-01-01T00:00:00" "1700000050.05555"
        cex_base_ne).1 ∧
    ∃ tx, (add_transaction cex_base "system" "SomnathProducers" 100
        "Initial credit allocation" "2026-01-01T00:00:00" "1700000050.05555"
        cex_base_ne).2.current_transactions =
        cex_base.current_transactions ++ [tx] ∧
      tx ∈ (mine_block (add_transaction cex_base "system" "SomnathProducers" 100
        "Initial credit allocation" "2026-01-01T00:00:00" "1700000050.05555"
        cex_base_ne).2 cex_base_ne ⟨35293, validProof_100_35293⟩ "1700000100.0").1.transactions :=
  add_transaction_returns_block_index cex_base (Reachable.init "1700000000.0")
    "system" "SomnathProducers" 100 "Initial credit allocation"
    "2026-01-01T00:00:00" "1700000050.05555" cex_base_ne
    ⟨35293, validProof_100_35293⟩ "1700000100.0"

/-! ## C4: block assembly -/

/-- Claim C4: `mine_block` appends exactly one new block whose transaction
list is exactly the pending pool (in order, nothing lost or duplicated),
whose index is the previous last block's index plus one, and whose
`previous_hash` refers to (is the full-dict hash of) the previous last
block; afterwards the pool is empty. -/
theorem mine_block_assembles (s : BState) (hr : Reachable s) (h : s.chain ≠ [])
    (hp : ∃ p, valid_proof (s.chain.getLast h).proof p = true) (ts : String) :
    (mine_block s h hp ts).2.chain = s.chain ++ [(mine_block s h hp ts).1] ∧
    (mine_block s h hp ts).1.transactions = s.current_transactions ∧
    (mine_block s h hp ts).1.index = (s.chain.getLast h).index + 1 ∧
    (mine_block s h hp ts).1.previous_hash = hash_block (s.chain.getLast h) ∧
    (mine_block s h hp ts).2.current_transactions = [] := by
  refine ⟨rfl, rfl, ?_, rfl, rfl⟩
  show s.chain.length + 1 = (s.chain.getLast h).index + 1
  rw [reachable_getLast_index s hr h]

/-- Witness for C4 at the state holding the pooled issuance: mining
commits the pool into block 2 and empties the pool. -/
theorem mine_block_assembles_witness :
    (mine_block cex_pool cex_base_ne ⟨35293, validProof_100_35293⟩ "1700000100.0").2.chain =
      cex_pool.chain ++
        [(mine_block cex_pool cex_base_ne ⟨35293, validProof_100_35293⟩ "1700000100.0").1] ∧
    (mine_block cex_pool cex_base_ne ⟨35293, validProof_100_35293⟩ "1700000100.0").1.transactions =
      cex_pool.current_transactions ∧
    (mine_block cex_pool cex_base_ne ⟨35293, validProof_100_35293⟩ "1700000100.0").1.index =
      (cex_pool.chain.getLast cex_base_ne).index + 1 ∧
    (mine_block cex_pool cex_base_ne ⟨35293, validProof_100_35293⟩ "1700000100.0").1.previous_hash =
      hash_block (cex_pool.chain.getLast cex_base_ne) ∧
    (mine_block cex_pool cex_base_ne ⟨35293, validProof_100_35293⟩ "1700000100.0").2.current_transactions =
      [] :=
  mine_block_assembles cex_pool
    (Reachable.add cex_base "system" "SomnathProducers" 100
      "Initial credit allocation" "2026-01-01T00:00:00" "1700000050.05555" cex_base_ne
      (Reachable.init "1700000000.0"))
    cex_base_ne ⟨35293, validProof_100_35293⟩ "1700000100.0"

/-! ## C9: proof-of-work search -/

/-- Claim C9: whenever a valid nonce exists for `last_proof`, the
`proof_of_work` search terminates (is defined) and returns the least
`p ≥ 0` with `sha256(f"{last_proof}{p}")` starting with four hex zeros. -/
theorem proof_of_work_least (last_proof : Nat)
    (h : ∃ p, valid_proof last_proof p = true) :
    valid_proof last_proof (proof_of_work last_proof h) = true ∧
    ∀ q, q < proof_of_work last_proof h → valid_proof last_proof q = false := by
  refine ⟨Nat.find_spec h, fun q hq => ?_⟩
  have := Nat.find_min h hq
  simpa using this

/-- Witness for C9 at the genesis proof 100, whose search space is
nonempty (nonce 35293 is valid, checked by computing the SHA-256). -/
theorem proof_of_work_least_witness :
    valid_proof 100 (proof_of_work 100 ⟨35293, validProof_100_35293⟩) = true ∧
    ∀ q, q < proof_of_work 100 ⟨35293, validProof_100_35293⟩ →
      valid_proof 100 q = false :=
  proof_of_work_least 100 ⟨35293, validProof_100_35293⟩

/-! ## C10: adapter-level commits -/

/-- Through the simulated-mode adapter the pool is always empty between
calls and the chain is never empty. -/
theorem adapterReachable_inv (s : BState) (hr : AdapterReachable s) :
    s.current_transactions = [] ∧ s.chain ≠ [] := by
  induction hr with
  | init ts =>
    exact ⟨rfl, by simp [init_state, create_block]⟩
  | add s sender recipient amount details ts seed tsB h hp hs ih =>
    exact ⟨rfl, by
      simp [adapter_add_transaction, mine_block, mine_block_with, create_block]⟩
  | issue s recipient amount details ts seed tsB h hp hs ih =>
    exact ⟨rfl, by
      simp [adapter_issue_credits, mine_block, mine_block_with, create_block]⟩
  | mine s h hp ts hs ih =>
    exact ⟨rfl, by simp [mine_block, mine_block_with, create_block]⟩

/-- Claim C10: in simulated mode, each adapter-level transfer and each
issuance pools its single transaction and immediately mines, so the pool
is empty afterwards and the chain has grown by exactly one block holding
exactly that one transaction (issuance additionally reports `True`). -/
theorem adapter_commits_single_transaction (s : BState) (hr : AdapterReachable s)
    (sender recipient : String) (amount : Int) (details ts seed tsB : String)
    (h : s.chain ≠ [])
    (hp : ∃ p, valid_proof (s.chain.getLast h).proof p = true) :
    ((adapter_add_transaction s sender recipient amount details ts seed tsB h hp).2.current_transactions = [] ∧
     ∃ b tx, (adapter_add_transaction s sender recipient amount details ts seed tsB h hp).2.chain =
         s.chain ++ [b] ∧
       b.transactions = [tx] ∧ tx.sender = sender ∧ tx.recipient = recipient ∧
       tx.amount = amount ∧ tx.details = details) ∧
    ((adapter_issue_credits s recipient amount details ts seed tsB h hp).1 = true ∧
     (adapter_issue_credits s recipient amount details ts seed tsB h hp).2.current_transactions = [] ∧
     ∃ b tx, (adapter_issue_credits s recipient amount details ts seed tsB h hp).2.chain =
         s.chain ++ [b] ∧
       b.transactions = [tx] ∧ tx.sender = "system" ∧ tx.recipient = recipient ∧
       tx.amount = amount ∧ tx.details = details) := by
  have hpool := (adapterReachable_inv s hr).1
  constructor
  · refine ⟨rfl, _, pooled_tx s sender recipient amount details ts seed,
      rfl, ?_, rfl, rfl, rfl, rfl⟩
    show s.current_transactions ++ [pooled_tx s sender recipient amount details ts seed] = _
    rw [hpool]
    exact List.nil_append _
  · refine ⟨rfl, rfl, _, pooled_tx s "system" recipient amount details ts seed,
      rfl, ?_, rfl, rfl, rfl, rfl⟩
    show s.current_transactions ++ [pooled_tx s "system" recipient amount details ts seed] = _
    rw [hpool]
    exact List.nil_append _

/-- Witness for C10 at the freshly initialized simulated blockchain. -/
theorem adapter_commits_single_transaction_witness :
    ((adapter_add_transaction cex_base "SomnathProducers" "Ammonia Factory" 10
        "Credit purchase" "2026-01-01T00:10:00" "1700000200.07777" "1700000100.0"
        cex_base_ne ⟨35293, validProof_100_35293⟩).2.current_transactions = [] ∧
     ∃ b tx, (adapter_add_transaction cex_base "SomnathProducers" "Ammonia Factory" 10
          "Credit purchase" "2026-01-01T00:10:00" "1700000200.07777" "1700000100.0"
          cex_base_ne ⟨35293, validProof_100_35293⟩).2.chain = cex_base.chain ++ [b] ∧
       b.transactions = [tx] ∧ tx.sender = "SomnathProducers" ∧
       tx.recipient = "Ammonia Factory" ∧ tx.amount = 10 ∧ tx.details = "Credit purchase") ∧
    ((adapter_issue_credits cex_base "Ammonia Factory" 10 "Credit purchase"
        "2026-01-01T00:10:00" "1700000200.07777" "1700000100.0"
        cex_base_ne ⟨35293, validProof_100_35293⟩).1 = true ∧
     (adapter_issue_credits cex_base "Ammonia Factory" 10 "Credit purchase"
        "2026-01-01T00:10:00" "1700000200.07777" "1700000100.0"
        cex_base_ne ⟨35293, validProof_100_35293⟩).2.current_transactions = [] ∧
     ∃ b tx, (adapter_issue_credits cex_base "Ammonia Factory" 10 "Credit purchase"
          "2026-01-01T00:10:00" "1700000200.07777" "1700000100.0"
          cex_base_ne ⟨35293, validProof_100_35293⟩).2.chain = cex_base.chain ++ [b] ∧
       b.transactions = [tx] ∧ tx.sender = "system" ∧ tx.recipient = "Ammonia Factory" ∧
       tx.amount = 10 ∧ tx.details = "Credit purchase") :=
  adapter_commits_single_transaction cex_base (AdapterReachable.init "1700000000.0")
    "SomnathProducers" "Ammonia Factory" 10 "Credit purchase"
    "2026-01-01T00:10:00" "1700000200.07777" "1700000100.0"
    cex_base_ne ⟨35293, validProof_100_35293⟩

/-! ## C8: history query -/

/-- Matching transactions of one block, newest-first, as history views. -/
def block_matches (chainLen : Nat) (name : String) (b : Block) : List TxView :=
  (b.transactions.reverse.filter (tx_match name)).map (tx_view chainLen b)

/-- All matching committed transactions, newest block first and newest
transaction first within each block. -/
def committed_history (s : BState) (name : String) : List TxView :=
  s.chain.reverse.flatMap (block_matches s.chain.length name)

/-- Claim C8 as stated: the history is produced by scanning committed
blocks in reverse order and then the pending pool, most-recent-first,
bounded by `limit` (compared via the transaction hashes carried by the
returned views). -/
def history_claim : Prop :=
  ∀ s, Reachable s → ∀ (name : String) (limit : Int),
    (get_user_transactions s name limit).map TxView.transaction_hash =
      (((s.chain.reverse.flatMap fun b => b.transactions.reverse.filter (tx_match name)) ++
          s.current_transactions.filter (tx_match name)).map
        Transaction.transaction_hash).take limit.toNat

/-- Claim C8 counterexample: in the reachable state whose pending pool
holds the issuance to the producer (chain still genesis-only),
`get_user_transactions` returns `[]` — the pending pool is never scanned —
while the claimed scan would return that pending transaction. -/
theorem history_claim_counterexample : ¬ history_claim := by
  intro hcl
  have h := hcl cex_pool
    (Reachable.add cex_base "system" "SomnathProducers" 100
      "Initial credit allocation" "2026-01-01T00:00:00" "1700000050.05555" cex_base_ne
      (Reachable.init "1700000000.0"))
    "SomnathProducers" 25
  exact absurd h (by decide)

theorem scan_txs_spec (name : String) (limit : Int) (chainLen : Nat) (b : Block)
    (txs : List Transaction) (acc : List TxView)
    (hacc : acc.length < limit.toNat) :
    scan_txs name limit chainLen b txs acc =
      (if limit.toNat ≤ (acc ++ (txs.filter (tx_match name)).map (tx_view chainLen b)).length
       then ((acc ++ (txs.filter (tx_match name)).map (tx_view chainLen b)).take limit.toNat, true)
       else (acc ++ (txs.filter (tx_match name)).map (tx_view chainLen b), false)) := by
  induction txs generalizing acc with
  | nil =>
    simp only [scan_txs, List.filter_nil, List.map_nil, List.append_nil]
    rw [if_neg (by omega)]
  | cons tx rest ih =>
    by_cases hm : tx_match name tx
    · simp only [scan_txs, hm, if_pos, List.filter_cons_of_pos, List.map_cons]
      simp only [← Int.toNat_le]
      by_cases hstop : limit.toNat ≤ (acc ++ [tx_view chainLen b tx]).length
      · rw [if_pos hstop]
        have hlen : (acc ++ [tx_view chainLen b tx]).length = limit.toNat := by
          simp only [List.length_append, List.length_cons, List.length_nil] at hstop ⊢
          omega
        rw [if_pos (by
          simp only [List.length_append, List.length_cons, List.length_nil] at hlen ⊢
          omega)]
        have htake : (acc ++ [tx_view chainLen b tx] ++
            (rest.filter (tx_match name)).map (tx_view chainLen b)).take limit.toNat =
            (acc ++ [tx_view chainLen b tx]).take limit.toNat :=
          List.take_append_of_le_length (le_of_eq hlen.symm)
        rw [List.append_assoc] at htake
        have hcons : acc ++ tx_view chainLen b tx ::
            (rest.filter (tx_match name)).map (tx_view chainLen b) =
            acc ++ ([tx_view chainLen b tx] ++
              (rest.filter (tx_match name)).map (tx_view chainLen b)) := by simp
        rw [hcons, htake, ← hlen, List.take_length]
      · rw [if_neg hstop]
        rw [ih (acc ++ [tx_view chainLen b tx]) (by
          simp only [List.length_append, List.length_cons, List.length_nil] at hstop ⊢
          omega)]
        simp [List.append_assoc]
    · simp only [scan_txs, hm, if_neg, Bool.false_eq_true, not_false_iff, if_false,
        List.filter_cons_of_neg (by simpa using hm)]
      simp only [← Int.toNat_le]
      rw [if_neg (by omega)]
      exact ih acc hacc

theorem scan_blocks_spec (name : String) (limit : Int) (chainLen : Nat)
    (bs : List Block) (acc : List TxView) (hacc : acc.length < limit.toNat) :
    scan_blocks name limit chainLen bs acc =
      (if limit.toNat ≤ (acc ++ bs.flatMap (block_matches chainLen name)).length
       then (acc ++ bs.flatMap (block_matches chainLen name)).take limit.toNat
       else acc ++ bs.flatMap (block_matches chainLen name)) := by
  induction bs generalizing acc with
  | nil =>
    simp only [scan_blocks, List.flatMap_nil, List.append_nil]
    rw [if_neg (by omega)]
  | cons b rest ih =>
    have hs := scan_txs_spec name limit chainLen b b.transactions.reverse acc hacc
    by_cases hstop : limit.toNat ≤
        (acc ++ (b.transactions.reverse.filter (tx_match name)).map (tx_view chainLen b)).length
    · rw [if_pos hstop] at hs
      simp only [scan_blocks, hs, block_matches, List.flatMap_cons]
      rw [if_pos (by
        simp only [List.length_append, List.length_cons, List.length_nil] at hstop ⊢
        omega)]
      rw [← List.append_assoc]
      exact (List.take_append_of_le_length hstop).symm
    · rw [if_neg hstop] at hs
      simp only [scan_blocks, hs, block_matches, List.flatMap_cons]
      rw [ih (acc ++ (b.transactions.reverse.filter (tx_match name)).map (tx_view chainLen b)) (by
        simp only [List.length_append] at hstop ⊢
        omega)]
      simp only [List.append_assoc]

/-- Claim C8 (amended): for any positive `limit`, `get_user_transactions`
returns the first `limit` matching transactions scanning committed blocks
newest-first (newest-first within each block) — the pending pool is not
consulted. -/
theorem get_user_transactions_committed_take (s : BState) (name : String)
    (limit : Int) (hl : 1 ≤ limit) :
    get_user_transactions s name limit = (committed_history s name).take limit.toNat := by
  have h0 : ([] : List TxView).length < limit.toNat := by
    simp only [List.length_nil]
    omega
  rw [get_user_transactions, scan_blocks_spec name limit s.chain.length s.chain.reverse [] h0]
  simp only [List.nil_append, committed_history]
  by_cases hc : limit.toNat ≤ (s.chain.reverse.flatMap (block_matches s.chain.length name)).length
  · rw [if_pos hc]
  · rw [if_neg hc]
    exact (List.take_of_length_le (by omega)).symm

/-- Witness for the amended C8 at the committed-issuance state. -/
theorem get_user_transactions_committed_take_witness :
    get_user_transactions cex_mined "SomnathProducers" 10 =
      (committed_history cex_mined "SomnathProducers").take (10 : Int).toNat :=
  get_user_transactions_committed_take cex_mined "SomnathProducers" 10 (by decide)
